import Mathlib

/-!
Verification of the StockLogo recommendation engine (`run_system.py`).

The Python core is shallowly embedded: histograms are lists of natural
numbers, Python floats are exact rationals, fallible Python code (uncaught
exceptions) is `Except`, and the network / on-disk logo cache is an explicit
oracle (`World`).  `numpy.argsort` is modelled as a deterministic, stable
comparison sort (`List.insertionSort` over indices); no theorem below
depends on the order of tied elements beyond that determinism.
-/

set_option maxRecDepth 40000

namespace StockLogo

/-- Python runtime errors of the embedded fragment.  `zeroDivisionError` is the
uncaught exception raised by `sum(...) / sum(r)` when a denominator is `0`. -/
inductive PyErr where
  | zeroDivisionError
  deriving DecidableEq, Repr

/-- A decoded PIL image, abstracted to the only observation the core makes of
it: `Image.histogram()`, a flat list of per-bucket pixel counts. -/
structure PILImage where
  hist : List ℕ
  deriving DecidableEq, Repr

/-- Python slice `input_histogram[0:256]` (the `r` channel). -/
def sliceR (h : List ℕ) : List ℕ := h.take 256

/-- Python slice `input_histogram[256:256*2]` (the `g` channel). -/
def sliceG (h : List ℕ) : List ℕ := (h.drop 256).take 256

/-- Python slice `input_histogram[256*2:256*3]` (the `b` channel). -/
def sliceB (h : List ℕ) : List ℕ := (h.drop 512).take 256

/-- `sum(i * w for i, w in enumerate(xs))`. -/
def weightedSum (xs : List ℕ) : ℕ :=
  (xs.enum.map (fun p => p.1 * p.2)).sum

/-- Weighted mean of one channel: `sum(i * w for i, w in enumerate(xs)) / sum(xs)`
(Python float division, embedded as exact rationals). -/
def channelMean (xs : List ℕ) : ℚ :=
  (weightedSum xs : ℚ) / (xs.sum : ℚ)

/-- `average_color_from_histogram` (run_system.py lines 97-107): slice the flat
histogram into the three channels and return the three weighted means.  When a
channel total is `0`, Python raises an uncaught `ZeroDivisionError`. -/
def averageColorFromHistogram (h : List ℕ) : Except PyErr (List ℚ) :=
  if (sliceR h).sum = 0 ∨ (sliceG h).sum = 0 ∨ (sliceB h).sum = 0 then
    Except.error PyErr.zeroDivisionError
  else
    Except.ok [channelMean (sliceR h), channelMean (sliceG h), channelMean (sliceB h)]

/-- Modelled from the spec: §4.3's formula "for each channel, the weighted mean
intensity `sum(bucket_index * bucket_count) / sum(bucket_count)` over the 256
buckets of that channel", channel `c` occupying histogram indices
`[256*c, 256*(c+1))`.  Used only to compare the spec's wording with the
code-derived `averageColorFromHistogram`. -/
def specChannelMean (h : List ℕ) (c : ℕ) : ℚ :=
  (∑ i ∈ Finset.range 256, (i : ℚ) * (h.getD (256 * c + i) 0 : ℚ)) /
  (∑ i ∈ Finset.range 256, (h.getD (256 * c + i) 0 : ℚ))

/-- Empirical CDF of the value multiset `w` at `x`:
`searchsorted(sort w, x, side=right) / len w`. -/
def ecdf (w : List ℚ) (x : ℚ) : ℚ :=
  ((w.countP (fun v => decide (v ≤ x)) : ℕ) : ℚ) / (w.length : ℚ)

/-- The pooled, ascending-sorted values of the two samples. -/
def poolSorted (u v : List ℚ) : List ℚ :=
  List.insertionSort (· ≤ ·) (u ++ v)

/-- `scipy.stats.wasserstein_distance(u, v)` with unit weights: integrate
`|F_u - F_v|` between consecutive values of the pooled sorted sample
(the CDF is evaluated at the left endpoint of each gap). -/
def wassersteinDistance (u v : List ℚ) : ℚ :=
  (((poolSorted u v).zip (poolSorted u v).tail).map
    (fun p => |ecdf u p.1 - ecdf v p.1| * (p.2 - p.1))).sum

/-- One row of the raw feed restricted to `useful_fields`; `none` is a missing
value (pandas `NaN`), `some ""` is an empty string (kept by `dropna`). -/
structure RawRecord where
  symbol : Option String
  shortName : Option String
  logoUrl : Option String
  deriving DecidableEq, Repr

/-- A row after `dropna()`: all three useful fields present. -/
structure CleanRecord where
  symbol : String
  shortName : String
  logoUrl : String
  deriving DecidableEq, Repr

/-- Outcome of opening/decoding an image from the cache or the network
(`err` covers any raised exception: network error, decode failure, save
failure). -/
inductive FetchOutcome where
  | ok (img : PILImage)
  | err
  deriving DecidableEq, Repr

/-- Oracle for the effects `download_logos` performs: the on-disk cache
(keyed by file name; `none` = file absent) and the network (keyed by the
fetched URL). -/
structure World where
  cacheFile : String → Option FetchOutcome
  webFetch : String → FetchOutcome

/-- The body of the `try:` block of `download_logos` (run_system.py lines
78-87): read `LOGO_CACHE/<symbol>.png` if present, otherwise fetch
`logo_url` with every `"https"` replaced by `"http"`; `Except.error` is a
raised exception. -/
def tryBody (w : World) (r : CleanRecord) : Except Unit PILImage :=
  match w.cacheFile (r.symbol ++ ".png") with
  | some (FetchOutcome.ok img) => Except.ok img
  | some FetchOutcome.err => Except.error ()
  | none =>
    match w.webFetch (String.replace r.logoUrl "https" "http") with
    | FetchOutcome.ok img => Except.ok img
    | FetchOutcome.err => Except.error ()

/-- `download_logos` (run_system.py lines 76-92): a falsy (empty) `logo_url`
short-circuits to `None`; otherwise the `try:` body runs with every raised
exception converted to `None` by the bare `except:`. -/
def downloadLogos (w : World) (r : CleanRecord) : Option PILImage :=
  if r.logoUrl = "" then none else (tryBody w r).toOption

/-- The `dropna()` filter on one row (run_system.py line 45): kept iff all
three useful fields are non-missing. -/
def cleanOf (r : RawRecord) : Option CleanRecord :=
  match r.symbol, r.shortName, r.logoUrl with
  | some s, some n, some u => some (CleanRecord.mk s n u)
  | _, _, _ => none

/-- `clean_data` after line 45: the raw rows surviving `dropna()`. -/
def dropnaStep (rs : List RawRecord) : List CleanRecord :=
  rs.filterMap cleanOf

/-- `clean_data` after lines 48-50: attach `download_logos` to every surviving
row, drop the rows whose image is `None`, and renumber positions `0..n-1`
(list order). -/
def buildCleanData (w : World) (rs : List RawRecord) : List (CleanRecord × PILImage) :=
  (dropnaStep rs).filterMap (fun c => (downloadLogos w c).map (fun img => (c, img)))

/-- pandas `Series.drop_duplicates(keep='first')` on a series given as
(index-label, value) pairs: drop every pair whose VALUE was already seen;
index labels play no part. -/
def dropDupValuesAux : List (String × ℕ) → List ℕ → List (String × ℕ)
  | [], _ => []
  | p :: ps, seen =>
    if p.2 ∈ seen then dropDupValuesAux ps seen
    else p :: dropDupValuesAux ps (p.2 :: seen)

/-- `Series.drop_duplicates()` applied to a whole series. -/
def seriesDropDuplicates (ps : List (String × ℕ)) : List (String × ℕ) :=
  dropDupValuesAux ps []

/-- `self.indices = pd.Series(self.clean_data.index, index=self.clean_data['symbol']).drop_duplicates()`
(run_system.py line 52): the series has the symbols as index labels and the
integer positions `0..n-1` as values. -/
def makeIndices (symbols : List String) : List (String × ℕ) :=
  seriesDropDuplicates (symbols.enum.map (fun p => (p.2, p.1)))

/-- Line 55, `clean_data.apply(self.average_image_color, axis=1)`: compute the
signature of every catalog image, row by row; the first raised
`ZeroDivisionError` propagates and aborts `__init__`. -/
def buildAverageColors : List (CleanRecord × PILImage) → Except PyErr (List (List ℚ))
  | [] => Except.ok []
  | p :: ps =>
    match averageColorFromHistogram p.2.hist with
    | Except.error e => Except.error e
    | Except.ok c =>
      match buildAverageColors ps with
      | Except.error e => Except.error e
      | Except.ok cs => Except.ok (c :: cs)

/-- One fully built row of `clean_data` (columns used by the query path). -/
structure Entry where
  symbol : String
  shortName : String
  logoUrl : String
  image : PILImage
  averageColor : List ℚ
  deriving DecidableEq, Repr

/-- The `rgb_distance` column (line 117): `wasserstein_distance(row["average_color"],
self.current_rgb)` for every row. -/
def rgbDistances (q : List ℚ) (entries : List Entry) : List ℚ :=
  entries.map (fun e => wassersteinDistance e.averageColor q)

/-- Comparison of positions by their `rgb_distance` value. -/
def dsRel (ds : List ℚ) : ℕ → ℕ → Prop :=
  fun i j => ds.getD i 0 ≤ ds.getD j 0

instance (ds : List ℚ) : DecidableRel (dsRel ds) := fun i j => by
  unfold dsRel; infer_instance

/-- `(self.clean_data["rgb_distance"]).argsort()`: the positions `0..n-1`
sorted ascending by their distance (modelled as a deterministic stable
comparison sort). -/
def argsortQ (ds : List ℚ) : List ℕ :=
  List.insertionSort (dsRel ds) (List.range ds.length)

/-- The Python slice `argsort()[1:6]` of line 118. -/
def recommendIdx (q : List ℚ) (entries : List Entry) : List ℕ :=
  ((argsortQ (rgbDistances q entries)).drop 1).take 5

/-- `closest_values = self.clean_data.iloc[argsort()[1:6]]`. -/
def recommendEntries (q : List ℚ) (entries : List Entry) : List Entry :=
  (recommendIdx q entries).filterMap (fun i => entries[i]?)

/-- `closest_values[["symbol", "shortName"]]`, the first returned component. -/
def recommendPairs (q : List ℚ) (entries : List Entry) : List (String × String) :=
  (recommendEntries q entries).map (fun e => (e.symbol, e.shortName))

/-- `scores = [x for x in closest_values["rgb_distance"]]`. -/
def recommendScores (q : List ℚ) (entries : List Entry) : List ℚ :=
  (recommendIdx q entries).filterMap (fun i => (rgbDistances q entries)[i]?)

/-- The mutable state of a `RecommendationSystem` instance after `__init__`:
the `clean_data` table (its per-entry columns in `cleanData`, the
`rgb_distance` column — absent until the first query — separately), the
`indices` series, and the three `current_*` fields. -/
structure SystemState where
  cleanData : List Entry
  rgbDistanceCol : Option (List ℚ)
  indices : List (String × ℕ)
  currentImage : Option PILImage
  currentHistogram : Option (List ℕ)
  currentRgb : Option (List ℚ)
  deriving DecidableEq, Repr

/-- `get_recommendation` (run_system.py lines 112-120) on an already decoded
query image: store the image, its histogram and its signature in the
`current_*` fields, write the `rgb_distance` column into the shared table, and
return the rows and scores at sorted positions 1..5.  A `ZeroDivisionError`
from the signature propagates (uncaught). -/
def getRecommendation (s : SystemState) (img : PILImage) :
    Except PyErr (SystemState × List (String × String) × List ℚ) :=
  match averageColorFromHistogram img.hist with
  | Except.error e => Except.error e
  | Except.ok q =>
    Except.ok
      (SystemState.mk s.cleanData (some (rgbDistances q s.cleanData)) s.indices
        (some img) (some img.hist) (some q),
       recommendPairs q s.cleanData,
       recommendScores q s.cleanData)

/-- Decidable equality of `Except` values, used only to evaluate the embedded
functions on concrete inputs. -/
instance {ε α : Type} [DecidableEq ε] [DecidableEq α] : DecidableEq (Except ε α) := fun x y =>
  match x, y with
  | Except.ok a, Except.ok b =>
    match decEq a b with
    | isTrue h => isTrue (congrArg Except.ok h)
    | isFalse h => isFalse (fun hc => h (Except.ok.inj hc))
  | Except.ok _, Except.error _ => isFalse (fun hc => Except.noConfusion hc)
  | Except.error _, Except.ok _ => isFalse (fun hc => Except.noConfusion hc)
  | Except.error a, Except.error b =>
    match decEq a b with
    | isTrue h => isTrue (congrArg Except.error h)
    | isFalse h => isFalse (fun hc => h (Except.error.inj hc))

/-- A channel total of zero, the condition under which
`average_color_from_histogram` divides by zero. -/
abbrev hasZeroChannel (h : List ℕ) : Prop :=
  (sliceR h).sum = 0 ∨ (sliceG h).sum = 0 ∨ (sliceB h).sum = 0

/-! Concrete inputs used to evaluate the embedded code. -/

/-- The flat histogram of a well-formed 3-channel image with every bucket 1. -/
def histUniform : List ℕ := List.replicate 768 1

/-- The flat histogram of a degenerate image: every bucket count 0. -/
def histZero : List ℕ := List.replicate 768 0

/-- Histogram agreeing with `histAlphaB` on the first 768 buckets, then one
extra (alpha-channel) bucket holding 5. -/
def histAlphaA : List ℕ := List.replicate 768 1 ++ [5]

/-- Histogram agreeing with `histAlphaA` on the first 768 buckets, then one
extra (alpha-channel) bucket holding 7. -/
def histAlphaB : List ℕ := List.replicate 768 1 ++ [7]

/-- A decodable image with uniform histogram. -/
def imgGood : PILImage := PILImage.mk histUniform

/-- A degenerate image whose histogram is all zeros. -/
def imgBad : PILImage := PILImage.mk histZero

/-- The signature `average_color_from_histogram` computes for `histUniform`. -/
def qGood : List ℚ := [255 / 2, 255 / 2, 255 / 2]

/-- A catalog entry with the given symbol and signature. -/
def mkEntry (s : String) (c : List ℚ) : Entry :=
  Entry.mk s s "http://logo.example/x.png" imgGood c

/-- Six catalog entries: one at distance 0 from the black query and five tied
at distance 3. -/
def tieEntries : List Entry :=
  [mkEntry "E0" [0, 0, 0], mkEntry "E1" [3, 3, 3], mkEntry "E2" [3, 3, 3],
   mkEntry "E3" [3, 3, 3], mkEntry "E4" [3, 3, 3], mkEntry "E5" [3, 3, 3]]

/-- Six catalog entries at pairwise distinct distances from the black query. -/
def distinctEntries : List Entry :=
  [mkEntry "E0" [0, 0, 0], mkEntry "E1" [1, 1, 1], mkEntry "E2" [2, 2, 2],
   mkEntry "E3" [3, 3, 3], mkEntry "E4" [4, 4, 4], mkEntry "E5" [5, 5, 5]]

/-- The all-black query signature. -/
def zeroSig : List ℚ := [0, 0, 0]

/-- A world whose cache holds a decodable `imgGood` for every symbol (so the
network is never consulted). -/
def wCache : World := World.mk (fun _ => some (FetchOutcome.ok imgGood)) (fun _ => FetchOutcome.err)

/-- A world whose cache file exists for every symbol but fails to decode. -/
def wErr : World := World.mk (fun _ => some FetchOutcome.err) (fun _ => FetchOutcome.err)

/-- A raw record whose `logo_url` is present but empty. -/
def rEmptyUrl : RawRecord := RawRecord.mk (some "AAPL") (some "Apple") (some "")

/-- A raw record whose `symbol` is present but empty, with a usable logo. -/
def rEmptySym : RawRecord :=
  RawRecord.mk (some "") (some "NoName Corp") (some "http://logo.example/b.png")

/-- A raw record whose `logo_url` is missing (pandas `NaN`). -/
def rMissing : RawRecord := RawRecord.mk (some "MSFT") (some "Microsoft") none

/-- A complete raw record. -/
def rawA : RawRecord :=
  RawRecord.mk (some "AAPL") (some "Apple") (some "http://logo.example/a.png")

/-- The cleaned form of `rawA`. -/
def cRecA : CleanRecord := CleanRecord.mk "AAPL" "Apple" "http://logo.example/a.png"

/-- The cleaned form of `rEmptyUrl`: all fields present, `logo_url` empty. -/
def cEmptyUrl : CleanRecord := CleanRecord.mk "AAPL" "Apple" ""

/-- A raw feed containing the empty-`logo_url` record and a complete record. -/
def rsMixed : List RawRecord := [rEmptyUrl, rawA]

/-- A built catalog where the `"BAD"` row's image has an all-zero histogram. -/
def goodBadPairs : List (CleanRecord × PILImage) :=
  [(cRecA, imgGood), (CleanRecord.mk "BAD" "Bad Corp" "http://logo.example/c.png", imgBad)]

/-- A system state with one catalog entry and no query served yet. -/
def s0 : SystemState :=
  SystemState.mk [mkEntry "E0" [0, 0, 0]] none [("E0", 0)] none none none

/- Batteries marks the `Rat` field operations `@[irreducible]`; restore
semireducibility locally so that `decide` can evaluate the embedded code on
concrete rational inputs (the kernel is unaffected either way). -/
attribute [local semireducible] Rat.add Rat.mul Rat.inv Rat.sub

/-! ### Properties of the distance metric -/

/-- The pooled sorted sample does not depend on the order of the two inputs. -/
lemma poolSorted_comm (u v : List ℚ) : poolSorted u v = poolSorted v u :=
  List.eq_of_perm_of_sorted
    (((List.perm_insertionSort _ _).trans List.perm_append_comm).trans
      (List.perm_insertionSort _ _).symm)
    (List.sorted_insertionSort _ _) (List.sorted_insertionSort _ _)

/-- The embedded scipy metric is symmetric. -/
lemma wassersteinDistance_comm (u v : List ℚ) :
    wassersteinDistance u v = wassersteinDistance v u := by
  unfold wassersteinDistance
  rw [poolSorted_comm]
  have hfg : (fun p : ℚ × ℚ => |ecdf u p.1 - ecdf v p.1| * (p.2 - p.1)) =
      (fun p : ℚ × ℚ => |ecdf v p.1 - ecdf u p.1| * (p.2 - p.1)) :=
    funext fun p => by rw [abs_sub_comm]
  rw [hfg]

/-- The embedded scipy metric of a sample with itself is `0`. -/
lemma wassersteinDistance_self (u : List ℚ) : wassersteinDistance u u = 0 := by
  unfold wassersteinDistance
  apply List.sum_eq_zero
  intro x hx
  obtain ⟨p, _, hpx⟩ := List.mem_map.mp hx
  rw [← hpx, sub_self, abs_zero, zero_mul]

/-- Claim C9: for all 3-element RGB signatures `a` and `b`, the distance metric
(`get_rgb_distance`, i.e. `scipy.stats.wasserstein_distance` on the two
3-element signatures) satisfies `distance(a,b) = distance(b,a)` and
`distance(a,a) = 0`. -/
theorem c9_theorem (a b : List ℚ) (ha : a.length = 3) (hb : b.length = 3) :
    wassersteinDistance a b = wassersteinDistance b a ∧ wassersteinDistance a a = 0 :=
  ⟨wassersteinDistance_comm a b, wassersteinDistance_self a⟩

/-- Witness for C9 at the concrete signatures `[1,2,3]` and `[0,5,5]`. -/
theorem c9_witness :
    (([(1 : ℚ), 2, 3].length = 3 ∧ [(0 : ℚ), 5, 5].length = 3) ∧
      wassersteinDistance [1, 2, 3] [0, 5, 5] = wassersteinDistance [0, 5, 5] [1, 2, 3] ∧
      wassersteinDistance [1, 2, 3] [1, 2, 3] = 0) ∧
    wassersteinDistance [1, 2, 3] [0, 5, 5] = 2 :=
  ⟨⟨⟨rfl, rfl⟩, c9_theorem [1, 2, 3] [0, 5, 5] rfl rfl⟩, by decide⟩

/-! ### Ranking -/

/-- Claim C8: on a catalog with exactly one entry the query path returns the
empty sequence of recommendations and the empty sequence of scores (the sole
entry is the dropped self-match), and does not fail: the slice
`argsort()[1:6]` of a 1-element frame is empty. -/
theorem c8_theorem (q : List ℚ) (e : Entry) :
    recommendPairs q [e] = [] ∧ recommendScores q [e] = [] := by
  constructor <;>
    simp [recommendPairs, recommendScores, recommendEntries, recommendIdx, argsortQ,
      rgbDistances, List.range_succ]

/-! ### The symbol-to-position series -/

/-- Claim C3, evaluation at the failing input: two filtered records share the
symbol `"A"`, and line 52's `drop_duplicates()` — which drops duplicate
VALUES (positions), never duplicate index labels (symbols) — keeps both, so
the symbol-to-position series has the duplicate key `"A"` and still contains
the second occurrence. -/
theorem c3_code_eval :
    makeIndices ["A", "A"] = [("A", 0), ("A", 1)] ∧
    ("A", 1) ∈ makeIndices ["A", "A"] ∧
    ¬ ((makeIndices ["A", "A"]).map Prod.fst).Nodup := by decide

/-! ### The signature reads only the first 768 buckets -/

/-- Two lists agreeing below `a + n` have equal `[a:a+n]` slices. -/
lemma slice_eq_of_agree (h₁ h₂ : List ℕ) (a n : ℕ) (han : a + n ≤ 768)
    (hag : ∀ i, i < 768 → h₁[i]? = h₂[i]?) :
    (h₁.drop a).take n = (h₂.drop a).take n := by
  apply List.ext_getElem?
  intro m
  rw [List.getElem?_take, List.getElem?_take]
  by_cases hm : m < n
  · rw [if_pos hm, if_pos hm, List.getElem?_drop, List.getElem?_drop]
    exact hag (a + m) (by omega)
  · rw [if_neg hm, if_neg hm]

/-- Claim C10: `average_color_from_histogram` reads only the slices
`[0:256)`, `[256:512)`, `[512:768)` of its input, so any two histograms that
agree on indices 0 through 767 — e.g. an RGB histogram and the RGBA histogram
extending it with alpha buckets — get identical signatures. -/
theorem c10_theorem (h₁ h₂ : List ℕ) (hag : ∀ i, i < 768 → h₁[i]? = h₂[i]?) :
    averageColorFromHistogram h₁ = averageColorFromHistogram h₂ := by
  have hr : sliceR h₁ = sliceR h₂ := by
    have h := slice_eq_of_agree h₁ h₂ 0 256 (by omega) hag
    simpa [sliceR] using h
  have hg : sliceG h₁ = sliceG h₂ := slice_eq_of_agree h₁ h₂ 256 256 (by omega) hag
  have hb : sliceB h₁ = sliceB h₂ := slice_eq_of_agree h₁ h₂ 512 256 (by omega) hag
  unfold averageColorFromHistogram
  rw [hr, hg, hb]

/-- The first 768 entries of `List.replicate 768 1 ++ [c]` are all `1`. -/
lemma replicateAppend_getElem (c i : ℕ) (hi : i < 768) :
    (List.replicate 768 1 ++ [c])[i]? = some 1 := by
  rw [List.getElem?_append, List.length_replicate, if_pos hi, List.getElem?_replicate,
    if_pos hi]

/-- Witness for C10: two histograms differing only in the 769th (alpha)
bucket have equal signatures. -/
theorem c10_witness :
    (∀ i, i < 768 → histAlphaA[i]? = histAlphaB[i]?) ∧
    averageColorFromHistogram histAlphaA = averageColorFromHistogram histAlphaB :=
  ⟨fun i hi => by
      rw [show histAlphaA[i]? = some 1 from replicateAppend_getElem 5 i hi,
        show histAlphaB[i]? = some 1 from replicateAppend_getElem 7 i hi],
   c10_theorem histAlphaA histAlphaB (fun i hi => by
      rw [show histAlphaA[i]? = some 1 from replicateAppend_getElem 5 i hi,
        show histAlphaB[i]? = some 1 from replicateAppend_getElem 7 i hi])⟩

/-! ### The signature formula -/

/-- A list sum as a sum over positions. -/
lemma list_sum_eq_range (xs : List ℕ) :
    xs.sum = ∑ i ∈ Finset.range xs.length, xs.getD i 0 := by
  induction xs with
  | nil => simp
  | cons x xs ih =>
    rw [List.sum_cons, List.length_cons, Finset.sum_range_succ']
    simp only [List.getD_cons_succ, List.getD_cons_zero]
    rw [← ih]
    ring

/-- The enumerate-and-multiply sum as a sum over positions, for an arbitrary
starting index. -/
lemma enumFrom_weightedSum (xs : List ℕ) : ∀ k,
    ((xs.enumFrom k).map (fun p => p.1 * p.2)).sum =
      ∑ i ∈ Finset.range xs.length, (k + i) * xs.getD i 0 := by
  induction xs with
  | nil => intro k; simp
  | cons x xs ih =>
    intro k
    rw [show (x :: xs).enumFrom k = (k, x) :: xs.enumFrom (k + 1) from rfl]
    rw [List.map_cons, List.sum_cons, ih (k + 1), List.length_cons, Finset.sum_range_succ']
    simp only [List.getD_cons_succ, List.getD_cons_zero]
    have hsum : ∑ i ∈ Finset.range xs.length, (k + 1 + i) * xs.getD i 0 =
        ∑ i ∈ Finset.range xs.length, (k + (i + 1)) * xs.getD i 0 :=
      Finset.sum_congr rfl (fun i _ => by ring_nf)
    rw [hsum]
    ring

/-- `weightedSum` as a sum over positions. -/
lemma weightedSum_eq_range (xs : List ℕ) :
    weightedSum xs = ∑ i ∈ Finset.range xs.length, i * xs.getD i 0 := by
  unfold weightedSum
  rw [show xs.enum = xs.enumFrom 0 from rfl, enumFrom_weightedSum xs 0]
  simp

/-- Length of the slice `[a:a+n]` of a list of length at least `a + n`. -/
lemma slice_length (h : List ℕ) (a n : ℕ) (hle : a + n ≤ h.length) :
    ((h.drop a).take n).length = n := by
  rw [List.length_take, List.length_drop]
  omega

/-- Elements of the slice `[a:a+n]` at positions below `n`. -/
lemma slice_getD (h : List ℕ) (a n i : ℕ) (hi : i < n) :
    ((h.drop a).take n).getD i 0 = h.getD (a + i) 0 := by
  rw [List.getD_eq_getElem?_getD, List.getElem?_take_of_lt hi, List.getElem?_drop,
    ← List.getD_eq_getElem?_getD]

/-- The code's per-channel weighted mean over a slice equals the spec's
formula over the 256 buckets of that channel. -/
lemma channelMean_slice (h : List ℕ) (c : ℕ) (hle : 256 * c + 256 ≤ h.length) :
    channelMean ((h.drop (256 * c)).take 256) = specChannelMean h c := by
  unfold channelMean specChannelMean
  congr 1
  · rw [weightedSum_eq_range, slice_length h _ 256 hle, Nat.cast_sum]
    apply Finset.sum_congr rfl
    intro i hi
    rw [slice_getD h (256 * c) 256 i (Finset.mem_range.mp hi), Nat.cast_mul]
  · rw [list_sum_eq_range, slice_length h _ 256 hle, Nat.cast_sum]
    apply Finset.sum_congr rfl
    intro i hi
    rw [slice_getD h (256 * c) 256 i (Finset.mem_range.mp hi)]

/-- Claim C2: on a histogram of length at least 768 whose three channel
totals are non-zero, `average_color_from_histogram` returns exactly the
3-element vector whose component `c` is
`sum(bucket_index * bucket_count) / sum(bucket_count)` over the 256 buckets
of channel `c` (slices `[0,256)`, `[256,512)`, `[512,768)`). -/
theorem c2_theorem (h : List ℕ) (hlen : 768 ≤ h.length)
    (hr : (sliceR h).sum ≠ 0) (hg : (sliceG h).sum ≠ 0) (hb : (sliceB h).sum ≠ 0) :
    averageColorFromHistogram h =
      Except.ok [specChannelMean h 0, specChannelMean h 1, specChannelMean h 2] := by
  unfold averageColorFromHistogram
  rw [if_neg (by simp [hr, hg, hb])]
  have h0 : sliceR h = (h.drop (256 * 0)).take 256 := by simp [sliceR]
  have h1 : sliceG h = (h.drop (256 * 1)).take 256 := by norm_num [sliceG]
  have h2 : sliceB h = (h.drop (256 * 2)).take 256 := by norm_num [sliceB]
  rw [h0, h1, h2, channelMean_slice h 0 (by omega), channelMean_slice h 1 (by omega),
    channelMean_slice h 2 (by omega)]

/-- Witness for C2 at the uniform histogram. -/
theorem c2_witness :
    (768 ≤ histUniform.length ∧ (sliceR histUniform).sum ≠ 0 ∧
      (sliceG histUniform).sum ≠ 0 ∧ (sliceB histUniform).sum ≠ 0) ∧
    averageColorFromHistogram histUniform =
      Except.ok [specChannelMean histUniform 0, specChannelMean histUniform 1,
        specChannelMean histUniform 2] :=
  ⟨⟨by decide, by decide, by decide, by decide⟩,
   c2_theorem histUniform (by decide) (by decide) (by decide) (by decide)⟩

/-! ### Properties of `argsort()[1:6]` -/

/-- `argsort` is a permutation of the positions `0..n-1`. -/
lemma argsortQ_perm (ds : List ℚ) : (argsortQ ds).Perm (List.range ds.length) :=
  List.perm_insertionSort _ _

/-- `argsort` has one output index per distance. -/
lemma argsortQ_length (ds : List ℚ) : (argsortQ ds).length = ds.length := by
  rw [(argsortQ_perm ds).length_eq, List.length_range]

/-- `argsort` is sorted by distance. -/
lemma argsortQ_sorted (ds : List ℚ) : (argsortQ ds).Sorted (dsRel ds) := by
  haveI h1 : IsTotal ℕ (dsRel ds) := ⟨fun a b => le_total (ds.getD a 0) (ds.getD b 0)⟩
  haveI h2 : IsTrans ℕ (dsRel ds) := ⟨fun a b c hab hbc => le_trans hab hbc⟩
  exact List.sorted_insertionSort _ _

/-- Every index produced by `argsort` is in bounds. -/
lemma argsortQ_mem (ds : List ℚ) (i : ℕ) (hi : i ∈ argsortQ ds) : i < ds.length :=
  List.mem_range.mp ((argsortQ_perm ds).mem_iff.mp hi)

/-- `argsort` produces no duplicate index. -/
lemma argsortQ_nodup (ds : List ℚ) : (argsortQ ds).Nodup :=
  (argsortQ_perm ds).symm.nodup (List.nodup_range _)

/-- `iloc` over in-bounds positions keeps one row per position. -/
lemma filterMap_get_length {α : Type} (l : List α) (is : List ℕ)
    (hb : ∀ i ∈ is, i < l.length) :
    (is.filterMap (fun i => l[i]?)).length = is.length := by
  induction is with
  | nil => rfl
  | cons i is ih =>
    have hi : i < l.length := hb i (List.mem_cons_self i is)
    rw [List.filterMap_cons_some (List.getElem?_eq_getElem hi), List.length_cons,
      List.length_cons, ih (fun j hj => hb j (List.mem_cons_of_mem _ hj))]

/-- `iloc` over in-bounds positions is the elementwise lookup. -/
lemma filterMap_get_eq_map (l : List ℚ) (is : List ℕ)
    (hb : ∀ i ∈ is, i < l.length) :
    is.filterMap (fun i => l[i]?) = is.map (fun i => l.getD i 0) := by
  induction is with
  | nil => rfl
  | cons i is ih =>
    have hi : i < l.length := hb i (List.mem_cons_self i is)
    rw [List.filterMap_cons_some (List.getElem?_eq_getElem hi), List.map_cons,
      List.getD_eq_getElem l 0 hi, ih (fun j hj => hb j (List.mem_cons_of_mem _ hj))]

/-- Claim C1 (amended: ascending, not strictly ascending): on a catalog of at
least `k + 1 = 6` entries, `get_recommendation` sorts the positions ascending
by distance, drops sorted position 0 — an entry of globally minimal
distance, which is not among the results — and returns exactly the next 5
entries, whose distances are ascending (non-strictly: ties are possible). -/
theorem c1_theorem (q : List ℚ) (entries : List Entry) (h6 : 6 ≤ entries.length) :
    (recommendPairs q entries).length = 5 ∧
    (recommendScores q entries).Pairwise (· ≤ ·) ∧
    ∃ i0 rest, argsortQ (rgbDistances q entries) = i0 :: rest ∧
      recommendIdx q entries = rest.take 5 ∧
      (∀ d ∈ rgbDistances q entries, (rgbDistances q entries).getD i0 0 ≤ d) ∧
      i0 ∉ recommendIdx q entries := by
  have hdsl : (rgbDistances q entries).length = entries.length := List.length_map _ _
  have hal : (argsortQ (rgbDistances q entries)).length = entries.length := by
    rw [argsortQ_length, hdsl]
  obtain ⟨i0, rest, hcons⟩ :
      ∃ i0 rest, argsortQ (rgbDistances q entries) = i0 :: rest := by
    cases hA : argsortQ (rgbDistances q entries) with
    | nil => rw [hA] at hal; simp at hal; omega
    | cons a l => exact ⟨a, l, rfl⟩
  have hrest : rest.length = entries.length - 1 := by
    have h := hal
    rw [hcons, List.length_cons] at h
    omega
  have hidx : recommendIdx q entries = rest.take 5 := by
    unfold recommendIdx
    rw [hcons, List.drop_one, List.tail_cons]
  have hib : ∀ i ∈ recommendIdx q entries, i < entries.length := by
    intro i hi
    have hmem : i ∈ argsortQ (rgbDistances q entries) := by
      rw [hcons]
      exact List.mem_cons_of_mem _ (List.take_subset _ _ (hidx ▸ hi))
    have h := argsortQ_mem _ i hmem
    omega
  have hlenidx : (recommendIdx q entries).length = 5 := by
    rw [hidx, List.length_take, hrest]
    omega
  have hlenE : (recommendEntries q entries).length = 5 := by
    unfold recommendEntries
    rw [filterMap_get_length entries _ hib, hlenidx]
  have hbds : ∀ i ∈ recommendIdx q entries, i < (rgbDistances q entries).length := by
    intro i hi
    rw [hdsl]
    exact hib i hi
  have hsub : (recommendIdx q entries).Sublist (argsortQ (rgbDistances q entries)) := by
    rw [hidx, hcons]
    exact (rest.take_sublist 5).trans (List.sublist_cons_self i0 rest)
  refine ⟨?_, ?_, i0, rest, hcons, hidx, ?_, ?_⟩
  · unfold recommendPairs
    rw [List.length_map, hlenE]
  · unfold recommendScores
    rw [filterMap_get_eq_map _ _ hbds]
    exact List.Pairwise.map _ (fun a b hab => hab)
      (List.Pairwise.sublist hsub (argsortQ_sorted _))
  · intro d hd
    obtain ⟨j, hj, hjd⟩ := List.mem_iff_getElem.mp hd
    have hjmem : j ∈ argsortQ (rgbDistances q entries) := by
      rw [(argsortQ_perm _).mem_iff, List.mem_range]
      exact hj
    rw [hcons] at hjmem
    rcases List.mem_cons.mp hjmem with he | hm
    · rw [← he, List.getD_eq_getElem _ 0 hj, hjd]
    · have hrel := List.rel_of_sorted_cons (hcons ▸ argsortQ_sorted _) j hm
      unfold dsRel at hrel
      rw [List.getD_eq_getElem _ 0 hj, hjd] at hrel
      exact hrel
  · rw [hidx]
    intro hmem
    have h1 : i0 ∈ rest := List.take_subset _ _ hmem
    have h2 := argsortQ_nodup (rgbDistances q entries)
    rw [hcons] at h2
    exact (List.nodup_cons.mp h2).1 h1

/-- Counterexample to C1 as stated: with catalog `tieEntries` (one entry at
distance 0, five tied at distance 3 from the black query) the five returned
distances are `[3, 3, 3, 3, 3]`, which is not STRICTLY ascending. -/
theorem c1_counterexample :
    recommendScores zeroSig tieEntries = [3, 3, 3, 3, 3] ∧
    ¬ (recommendScores zeroSig tieEntries).Pairwise (· < ·) := by decide

/-- Witness for C1 (amended) at six entries with pairwise distinct
distances. -/
theorem c1_witness :
    6 ≤ distinctEntries.length ∧
    ((recommendPairs zeroSig distinctEntries).length = 5 ∧
      (recommendScores zeroSig distinctEntries).Pairwise (· ≤ ·) ∧
      ∃ i0 rest, argsortQ (rgbDistances zeroSig distinctEntries) = i0 :: rest ∧
        recommendIdx zeroSig distinctEntries = rest.take 5 ∧
        (∀ d ∈ rgbDistances zeroSig distinctEntries,
          (rgbDistances zeroSig distinctEntries).getD i0 0 ≤ d) ∧
        i0 ∉ recommendIdx zeroSig distinctEntries) :=
  ⟨by decide, c1_theorem zeroSig distinctEntries (by decide)⟩

/-! ### What a query mutates -/

/-- Claim C4 (amended): a successful `get_recommendation` leaves the catalog
rows (symbol, display name, logo url, image, signature), their order, and
the symbol-to-position series unchanged — but it DOES mutate shared state:
it writes the `rgb_distance` column into the shared table and overwrites
`current_image`, `current_histogram` and `current_rgb`. -/
theorem c4_theorem (s : SystemState) (img : PILImage) (q : List ℚ)
    (hq : averageColorFromHistogram img.hist = Except.ok q) :
    ∃ s₂ pairs scores,
      getRecommendation s img = Except.ok (s₂, pairs, scores) ∧
      s₂.cleanData = s.cleanData ∧
      s₂.indices = s.indices ∧
      s₂.rgbDistanceCol = some (rgbDistances q s.cleanData) ∧
      s₂.currentImage = some img ∧
      s₂.currentHistogram = some img.hist ∧
      s₂.currentRgb = some q ∧
      pairs = recommendPairs q s.cleanData ∧
      scores = recommendScores q s.cleanData :=
  ⟨SystemState.mk s.cleanData (some (rgbDistances q s.cleanData)) s.indices
      (some img) (some img.hist) (some q),
   recommendPairs q s.cleanData, recommendScores q s.cleanData,
   by unfold getRecommendation; rw [hq], rfl, rfl, rfl, rfl, rfl, rfl, rfl, rfl⟩

/-- Counterexample to C4 as stated ("no mutation of shared state"): serving a
query against `s0` changes the state — `current_rgb` goes from `none` to the
query signature and the `rgb_distance` column is written. -/
theorem c4_counterexample :
    s0.currentRgb = none ∧ s0.rgbDistanceCol = none ∧
    (getRecommendation s0 imgGood).toOption.map (fun o => o.1.currentRgb) =
      some (some qGood) ∧
    (getRecommendation s0 imgGood).toOption.map (fun o => o.1) ≠ some s0 := by
  refine ⟨rfl, rfl, ?_, ?_⟩ <;> decide

/-- Witness for C4 (amended) at the one-entry state `s0` and the uniform
query image. -/
theorem c4_witness :
    averageColorFromHistogram imgGood.hist = Except.ok qGood ∧
    ∃ s₂ pairs scores,
      getRecommendation s0 imgGood = Except.ok (s₂, pairs, scores) ∧
      s₂.cleanData = s0.cleanData ∧
      s₂.indices = s0.indices ∧
      s₂.rgbDistanceCol = some (rgbDistances qGood s0.cleanData) ∧
      s₂.currentImage = some imgGood ∧
      s₂.currentHistogram = some imgGood.hist ∧
      s₂.currentRgb = some qGood ∧
      pairs = recommendPairs qGood s0.cleanData ∧
      scores = recommendScores qGood s0.cleanData :=
  ⟨by decide, c4_theorem s0 imgGood qGood (by decide)⟩

/-! ### The uncaught division by zero -/

/-- A zero channel total makes `average_color_from_histogram` raise. -/
lemma averageColor_error_of_zero (h : List ℕ) (hz : hasZeroChannel h) :
    averageColorFromHistogram h = Except.error PyErr.zeroDivisionError := by
  unfold averageColorFromHistogram
  rw [if_pos hz]

/-- One degenerate row aborts the whole signature pass of the build. -/
lemma buildAverageColors_error (pairs : List (CleanRecord × PILImage))
    (hbuild : ∃ p ∈ pairs, hasZeroChannel p.2.hist) :
    buildAverageColors pairs = Except.error PyErr.zeroDivisionError := by
  induction pairs with
  | nil =>
    obtain ⟨p, hp, _⟩ := hbuild
    exact absurd hp (List.not_mem_nil p)
  | cons p ps ih =>
    obtain ⟨p', hp', hz'⟩ := hbuild
    rcases List.mem_cons.mp hp' with he | hm
    · subst he
      show buildAverageColors (p' :: ps) = _
      unfold buildAverageColors
      rw [averageColor_error_of_zero _ hz']
    · have htail := ih ⟨p', hm, hz'⟩
      show buildAverageColors (p :: ps) = _
      unfold buildAverageColors
      rw [htail]
      cases havg : averageColorFromHistogram p.2.hist with
      | error e => cases e; rfl
      | ok c => rfl

/-- Claim C5 (amended): a histogram with a zero channel total makes the code
raise an UNCAUGHT `ZeroDivisionError` (there is no `EmptyHistogramError` and
no catch): during catalog build the error aborts the whole signature pass
(the entry is NOT excluded non-fatally), and for a query image
`get_recommendation` propagates the same error. -/
theorem c5_theorem (pairs : List (CleanRecord × PILImage)) (s : SystemState)
    (img : PILImage) (hbuild : ∃ p ∈ pairs, hasZeroChannel p.2.hist)
    (hq : hasZeroChannel img.hist) :
    buildAverageColors pairs = Except.error PyErr.zeroDivisionError ∧
    getRecommendation s img = Except.error PyErr.zeroDivisionError := by
  refine ⟨buildAverageColors_error pairs hbuild, ?_⟩
  unfold getRecommendation
  rw [averageColor_error_of_zero _ hq]

/-- Counterexample to C5 as stated: with one good row and one degenerate row
the claim predicts a catalog holding the good row (non-fatal exclusion); the
code instead fails the whole pass — while the good row alone would build. -/
theorem c5_counterexample :
    buildAverageColors goodBadPairs = Except.error PyErr.zeroDivisionError ∧
    (buildAverageColors goodBadPairs).toOption = none ∧
    buildAverageColors [(cRecA, imgGood)] = Except.ok [qGood] := by
  refine ⟨?_, ?_, ?_⟩ <;> decide

/-- Witness for C5 (amended) at `goodBadPairs` and the degenerate query. -/
theorem c5_witness :
    ((∃ p ∈ goodBadPairs, hasZeroChannel p.2.hist) ∧ hasZeroChannel imgBad.hist) ∧
    buildAverageColors goodBadPairs = Except.error PyErr.zeroDivisionError ∧
    getRecommendation s0 imgBad = Except.error PyErr.zeroDivisionError :=
  ⟨⟨by decide, by decide⟩, c5_theorem goodBadPairs s0 imgBad (by decide) (by decide)⟩

/-! ### Filtering of incomplete rows -/

/-- Claim C6 (amended): a raw record with a MISSING (`NaN`) value in any of
the three required fields is dropped by `dropna()` before `download_logos`
runs; a record whose `logo_url` is present but EMPTY is not dropped there —
`download_logos` is invoked on it — but yields `None`, so it never enters
the catalog; and every recommendation-output row comes from the catalog.
(Records with an empty-string `symbol` or display name are not filtered at
all: see the counterexample.) -/
theorem c6_theorem (w : World) (rs : List RawRecord) :
    (∀ r : RawRecord,
      (r.symbol = none ∨ r.shortName = none ∨ r.logoUrl = none) → cleanOf r = none) ∧
    (∀ c ∈ dropnaStep rs, c.logoUrl = "" → downloadLogos w c = none) ∧
    (∀ p ∈ buildCleanData w rs, p.1.logoUrl ≠ "") ∧
    (∀ (q : List ℚ) (entries : List Entry) (e : Entry),
      e ∈ recommendEntries q entries → e ∈ entries) := by
  refine ⟨?_, ?_, ?_, ?_⟩
  · intro r hmiss
    obtain ⟨s, n, u⟩ := r
    unfold cleanOf
    cases s <;> cases n <;> cases u <;> simp_all
  · intro c _ hurl
    unfold downloadLogos
    rw [if_pos hurl]
  · intro p hp
    unfold buildCleanData at hp
    obtain ⟨c, _, hmap⟩ := List.mem_filterMap.mp hp
    obtain ⟨img, himg, heq⟩ := Option.map_eq_some'.mp hmap
    rw [← heq]
    intro hurl
    rw [downloadLogos, if_pos hurl] at himg
    exact Option.noConfusion himg
  · intro q entries e he
    obtain ⟨i, _, hei⟩ := List.mem_filterMap.mp he
    obtain ⟨hlt, hgot⟩ := List.getElem?_eq_some_iff.mp hei
    exact hgot ▸ List.getElem_mem hlt

/-- Counterexample to C6 as stated: the record with an EMPTY `logo_url`
survives `dropna()` — so `download_logos` is invoked on it, contradicting
"dropped before the Logo Cache fetch step" — and a record with an EMPTY
`symbol` is never filtered at all: it ends up in the catalog. -/
theorem c6_counterexample :
    dropnaStep [rEmptyUrl] = [cEmptyUrl] ∧
    buildCleanData wCache [rEmptySym] =
      [(CleanRecord.mk "" "NoName Corp" "http://logo.example/b.png", imgGood)] := by
  refine ⟨?_, ?_⟩ <;> decide

/-- Witness for C6 (amended): each conjunct applied at a concrete input. -/
theorem c6_witness :
    cleanOf rMissing = none ∧
    downloadLogos wCache cEmptyUrl = none ∧
    cRecA.logoUrl ≠ "" ∧
    mkEntry "E1" [1, 1, 1] ∈ distinctEntries :=
  ⟨(c6_theorem wCache rsMixed).1 rMissing (Or.inr (Or.inr rfl)),
   (c6_theorem wCache rsMixed).2.1 cEmptyUrl (by decide) rfl,
   (c6_theorem wCache rsMixed).2.2.1 (cRecA, imgGood) (by decide),
   (c6_theorem wCache rsMixed).2.2.2 zeroSig distinctEntries (mkEntry "E1" [1, 1, 1])
     (by decide)⟩

/-! ### The fetch operation never raises -/

/-- Claim C7: `download_logos` yields `None` exactly on failure — an empty
`logo_url` or a raised exception in the `try:` body (network error, decode
failure) — and the caller's filter keeps only rows whose fetch succeeded, so
a `None` row never enters the catalog.  (That no exception escapes is
expressed by the embedding itself: the operation's result type is `Option`,
every `tryBody` error mapping to `none`.) -/
theorem c7_theorem (w : World) :
    (∀ r : CleanRecord,
      downloadLogos w r = none ↔
        (r.logoUrl = "" ∨ ∃ e, tryBody w r = Except.error e)) ∧
    (∀ rs, ∀ p ∈ buildCleanData w rs, downloadLogos w p.1 = some p.2) := by
  constructor
  · intro r
    unfold downloadLogos
    by_cases hurl : r.logoUrl = ""
    · simp [hurl]
    · rw [if_neg hurl]
      cases htb : tryBody w r with
      | ok img => simp [Except.toOption, hurl]
      | error e => simp [Except.toOption, hurl]
  · intro rs p hp
    unfold buildCleanData at hp
    obtain ⟨c, _, hmap⟩ := List.mem_filterMap.mp hp
    obtain ⟨img, himg, heq⟩ := Option.map_eq_some'.mp hmap
    rw [← heq]
    exact himg

/-- Witness for C7: a failing decode yields `None`; a cache hit yields the
image, and the row built from it is kept with exactly that image. -/
theorem c7_witness :
    downloadLogos wErr cRecA = none ∧
    downloadLogos wCache cRecA = some imgGood :=
  ⟨((c7_theorem wErr).1 cRecA).mpr (Or.inr ⟨(), rfl⟩),
   (c7_theorem wCache).2 [rawA] (cRecA, imgGood) (by decide)⟩

end StockLogo
